import Mathlib

/-!
Verification of the casting engine of the ktv-casting repository.

The development shallowly embeds the Rust source into Lean:

* strings are modelled as `List Char` (`Str` below);
* `src/utils.rs` : `extract_bv_id`, `extract_error_code`, `is_success_code`,
  `should_treat_as_upnp_success`, and `retry_async` (the retry loop is made a
  function of the finite list of attempt outcomes it consumes);
* `src/main.rs` : the inline per-action retry loops of the on-change callback
  and the status-poller tick (auto-advance gate);
* `src/playlist_manager.rs` : `fetch_playlist`, `next_song`, and the decision
  logic of the periodic / WebSocket sync loops, as explicit state passing over
  the manager's three cells;
* `src/lib.rs` : `get_best_local_ip`;
* `src/media_server.rs` : `parse_range` (u64 arithmetic modelled over `Int`
  so that absence of underflow is expressible).

Rust's `char::is_numeric` is modelled as ASCII `Char.isDigit`; every status
code and header the claims mention is ASCII.
-/

namespace KtvCasting

/-- Strings of the Rust source, modelled as lists of characters. -/
abbrev Str := List Char

/-! ## src/utils.rs : extract_bv_id -/

/-- The scheme marker "bilibili://video/" searched for by `extract_bv_id`. -/
def bvMarker : Str := "bilibili://video/".data

/-- Model of Rust's `url.find(pat)` followed by taking the suffix after the
first occurrence of `pat`: returns the part of the list after the first
occurrence of `pat`, or `none` when `pat` (nonempty) does not occur. -/
def stripFirst (pat : Str) : Str → Option Str
  | [] => none
  | c :: t =>
    if pat.isPrefixOf (c :: t) then some ((c :: t).drop pat.length)
    else stripFirst pat t

/-- The two `String.replace` calls of `extract_bv_id`:
`.replace("?", "-")` then `.replace("=", "")`. -/
def canonChars (l : Str) : Str :=
  (l.map fun c => if c = '?' then '-' else c).filter fun c => decide (c ≠ '=')

/-- `utils::extract_bv_id` : take the part after "bilibili://video/" when that
marker occurs (otherwise the whole string), replace every '?' by '-' and
delete every '='. -/
def extract_bv_id (url : Str) : Str :=
  match stripFirst bvMarker url with
  | some after => canonChars after
  | none => canonChars url

/-! ## src/utils.rs : error-code extraction and the retry helper -/

/-- Decimal value of a digit string (used only under an all-digits guard). -/
def digitsVal (l : Str) : Nat :=
  l.foldl (fun a c => a * 10 + (c.toNat - '0'.toNat)) 0

/-- Model of Rust's `str::parse` into an unsigned integer type whose values
are the naturals below `bound`: an optional leading '+', then at least one
digit, and the value must fit. -/
def parseNat? (bound : Nat) (l : Str) : Option Nat :=
  let body := match l with | '+' :: t => t | _ => l
  if body ≠ [] ∧ body.all Char.isDigit then
    if digitsVal body < bound then some (digitsVal body) else none
  else none

/-- `utils::extract_error_code` : split the message on non-digit characters,
take the first token of length exactly 3, and parse it as a `u32`. -/
def extract_error_code (msg : Str) : Option Nat :=
  ((msg.splitOnP fun c => !c.isDigit).find? fun s => s.length == 3).bind
    (parseNat? (2 ^ 32))

/-- `utils::is_success_code` : `code / 100 == 2`. -/
def is_success_code (code : Nat) : Bool := code / 100 == 2

/-- `utils::should_treat_as_upnp_success`. -/
def should_treat_as_upnp_success (msg : Str) : Bool :=
  match extract_error_code msg with
  | some code => is_success_code code
  | none => false

/-- Observable outcome of one run of a retry loop: the returned result, how
many 500 ms sleeps were performed, and how many attempts were consumed. -/
structure RetryOutcome (α : Type) where
  result : Except Str α
  sleeps : Nat
  used : Nat

/-- The loop body of `utils::retry_async`, as a function of the list of
outcomes the successive attempts would produce.  `none` means the loop is
still running when the listed attempts are exhausted. -/
def retryGo (max_retries : Nat) (retries : Nat) :
    List (Except Str α) → Option (RetryOutcome α)
  | [] => none
  | Except.ok v :: _ => some ⟨Except.ok v, 0, 1⟩
  | Except.error e :: rest =>
    if 0 < max_retries ∧ max_retries < retries + 1 then
      some ⟨Except.error e, 0, 1⟩
    else
      (retryGo max_retries (retries + 1) rest).map
        fun o => ⟨o.result, o.sleeps + 1, o.used + 1⟩

/-- `utils::retry_async` (`max_retries = 0` meaning unbounded, as in the
source; `retry_until_success` is `retry_async` with `max_retries = 0`). -/
def retry_async (max_retries : Nat) (attempts : List (Except Str α)) :
    Option (RetryOutcome α) :=
  retryGo max_retries 0 attempts

/-! ## src/main.rs : the inline per-UPnP-action retry loops

Each of the `stop` / `set_avtransport_uri` / `play` / `get_secs` call sites in
`main.rs` wraps the action in `loop { match ... }` which breaks on `Ok`,
breaks (treating the attempt as success) when the error message's first
length-3 digit run parses to a code with `code / 100 == 2`, and otherwise
sleeps 500 ms and retries.  The extraction inlined there is exactly
`should_treat_as_upnp_success`. -/

/-- Outcome of one inline UPnP-action retry loop: sleeps performed, attempts
consumed, and whether success came from the 2xx-in-error-string path. -/
structure UpnpLoopOutcome where
  sleeps : Nat
  used : Nat
  via2xx : Bool

/-- The inline retry loop of `main.rs` around each UPnP action. -/
def upnpActionRetryLoop : List (Except Str Unit) → Option UpnpLoopOutcome
  | [] => none
  | Except.ok _ :: _ => some ⟨0, 1, false⟩
  | Except.error e :: rest =>
    if should_treat_as_upnp_success e then some ⟨0, 1, true⟩
    else (upnpActionRetryLoop rest).map fun o => ⟨o.sleeps + 1, o.used + 1, o.via2xx⟩

/-! ## src/playlist_manager.rs : state and fetch_playlist

`PlaylistManager` owns three cells: `hash : Option String`,
`playlist : Vec<String>`, `song_playing : Option String`.  `fetch_playlist`
is made a function of the current cell contents and of the outcome of the one
HTTP exchange it performs. -/

/-- The three mutable cells of a `PlaylistManager`. -/
structure PMState where
  hash : Option Str
  playlist : List Str
  song_playing : Option Str

/-- The sentinel hash used when the hash cell is unset. -/
def EMPTY_LIST_HASH : Str := "EMPTY_LIST_HASH".data

/-- A parsed `/api/songListInfo` JSON body, field by field as the source reads
it: `changed` via `as_bool` (`none` when absent or not a boolean), `hash` via
`as_str`, `list.queued` via `as_array` with each song's `url` via `as_str`,
and `list.singing.url` via `as_str`. -/
structure SongListResp where
  changed : Option Bool
  hash : Option Str
  queued : Option (List (Option Str))
  singingUrl : Option Str

/-- The `lastHash` query parameter sent by `fetch_playlist`:
the hash cell or the sentinel. -/
def fetchRequestHash (st : PMState) : Str :=
  st.hash.getD EMPTY_LIST_HASH

/-- `PlaylistManager::fetch_playlist`.  The `resp` argument is the outcome of
the HTTP GET: `Except.error` for a send failure, a non-2xx status, or a JSON
parse failure; `Except.ok` carries the parsed body.  Returns the new cell
contents and the function's `Result<Option<String>, String>`. -/
def fetch_playlist (st : PMState) (resp : Except Str SongListResp) :
    PMState × Except Str (Option Str) :=
  match resp with
  | Except.error e => (st, Except.error e)
  | Except.ok j =>
    if j.changed.getD false = false then
      (st, Except.ok st.song_playing)
    else
      let new_hash := j.hash.getD EMPTY_LIST_HASH
      let urls := ((j.queued.getD []).filterMap id).map extract_bv_id
      let singing := j.singingUrl.map extract_bv_id
      (⟨some new_hash, urls, singing⟩, Except.ok singing)

/-- Observable outcome of one `PlaylistManager::next_song` call. -/
structure NextSongOut where
  state : PMState
  result : Except Str Unit
  fetchCalls : Nat
  bodyHash : Str

/-- `PlaylistManager::next_song`.  `resp` is the outcome of the POST: an
`Except.error` for a send or JSON-parse failure, `Except.ok s` with `s` the
value of the body's `success` field read via `as_bool`.  `followup` is the
exchange the immediate `fetch_playlist` would perform (consumed only on
`success == true`). -/
def next_song (st : PMState) (resp : Except Str (Option Bool))
    (followup : Except Str SongListResp) : NextSongOut :=
  let bodyHash := st.hash.getD EMPTY_LIST_HASH
  match resp with
  | Except.error e => ⟨st, Except.error e, 0, bodyHash⟩
  | Except.ok success =>
    if success.getD false = false then
      ⟨st, Except.error ("request rejected".data), 0, bodyHash⟩
    else
      match fetch_playlist st followup with
      | (st2, Except.error e) => ⟨st2, Except.error e, 1, bodyHash⟩
      | (st2, Except.ok _) => ⟨st2, Except.ok (), 1, bodyHash⟩

/-! ## src/playlist_manager.rs : the sync-loop decision logic

All three cited sites compare the singing key returned by `fetch_playlist`
with a locally cached value, fire the on-change callback at most once, and
update the cached value.  Each step below returns the new cached value
together with the list (empty or singleton) of keys passed to the callback. -/

/-- One iteration of `start_periodic_update`: on a fetch error nothing
changes; otherwise the callback fires exactly when the returned key differs
from the cached one and is not `none`, and the cached value is set to the
returned key. -/
def pollStep (cached : Option Str) (fetched : Except Str (Option Str)) :
    Option Str × List Str :=
  match fetched with
  | Except.error _ => (cached, [])
  | Except.ok new =>
    if new = cached then (cached, [])
    else (new, match new with | some u => [u] | none => [])

/-- The periodic polling loop run over a finite list of fetch outcomes,
collecting every key passed to the on-change callback, in order. -/
def pollCallbacks (cached : Option Str) :
    List (Except Str (Option Str)) → List Str
  | [] => []
  | r :: rest =>
    let s := pollStep cached r
    s.2 ++ pollCallbacks s.1 rest

/-- The eager fetch performed by `start_ws_update` right after (re)connecting:
the cached value is (re)read from the `song_playing` cell; the callback fires
only on `Ok(Some(url))` with `url` different from the cached value, and in
that case the cached value becomes `Some(url)`.  `Ok(None)` and errors leave
the cached value as read. -/
def wsReconnectStep (cached : Option Str) (fetched : Except Str (Option Str)) :
    Option Str × List Str :=
  match fetched with
  | Except.ok (some u) =>
    if some u ≠ cached then (some u, [u]) else (cached, [])
  | Except.ok none => (cached, [])
  | Except.error _ => (cached, [])

/-- The UPDATE-frame branch of `start_ws_update`: when the frame's hash equals
the hash cell's current value the frame is skipped (no fetch, no callback);
otherwise `fetch_playlist` runs and the comparison is as in `pollStep`. -/
def wsUpdateStep (currentHash incomingHash : Str) (cached : Option Str)
    (fetched : Except Str (Option Str)) : Option Str × List Str :=
  if incomingHash = currentHash then (cached, [])
  else pollStep cached fetched

/-- The count of callback fires that the specification's sentence predicts
for a list of singing keys: positions whose key differs from the previous
one (the key before the first position being `none`) and is not `none`.
Written from the spec's words, for comparison with `pollCallbacks`. -/
def specChangeCount : Option Str → List (Option Str) → Nat
  | _, [] => 0
  | prev, k :: rest =>
    (if k ≠ prev ∧ k ≠ none then 1 else 0) + specChangeCount k rest

/-! ## src/main.rs : the status-poller tick

The poll task keeps a mutable `total_secs` across ticks; each tick reads
`cached_total` from the duration cache (0 when absent) and `current` from
`get_secs`.  `total_secs` is overwritten only when `cached_total > 0`;
`remaining = if total > current { total - current } else { 0 }` (which is
exactly truncated subtraction on `Nat`); the auto-advance fires when
`remaining <= 2 && total > 0`, and then the task sleeps 5 s before the next
tick. -/

/-- Observable outcome of one status-poller tick (the `Ok` branch of
`get_secs`). -/
structure TickOut where
  total : Nat
  fires : Bool
  extraSleep : Nat

/-- One status-poller tick of `main.rs`, as a function of the persistent
`total_secs`, the cached duration and the current position. -/
def pollTick (prevTotal cachedTotal current : Nat) : TickOut :=
  let total := if 0 < cachedTotal then cachedTotal else prevTotal
  let remaining := total - current
  let fires := decide (remaining ≤ 2) && decide (0 < total)
  ⟨total, fires, if fires then 5 else 0⟩

/-! ## src/lib.rs : get_best_local_ip -/

/-- Leading-zero count of a `u32` value (`u32::leading_zeros`): 32 minus the
bit length, the bit length of `n < 2^32` being the number of exponents
`k < 32` with `2^k ≤ n`. -/
def clz32 (n : Nat) : Nat :=
  32 - (List.range 32).countP fun k => decide (2 ^ k ≤ n)

/-- Rust's `Iterator::max_by_key` over a nonempty list, seeded with the first
element: a later element replaces the current maximum whenever its key is
greater than or equal (so among equal maxima the last one wins, as documented
for `max_by_key`). -/
def selectBest (key : Nat → Nat) (b : Nat) : List Nat → Nat
  | [] => b
  | x :: rest => selectBest key (if key b ≤ key x then x else b) rest

/-- `lib.rs::get_best_local_ip`.  `target` is the parsed IPv4 of the renderer
(`none` when parsing fails), `v4s` the IPv4 interface addresses in iteration
order (the source's `filter_map` keeps exactly those), both as `u32`;
`fallback` models the `local_ip()` fallback.  The key is the leading-zero
count of `target XOR interface`. -/
def get_best_local_ip (target : Option Nat) (v4s : List Nat)
    (fallback : Nat) : Nat :=
  match target with
  | some t =>
    match v4s with
    | [] => fallback
    | x :: rest => selectBest (fun ip => clz32 (Nat.xor t ip)) x rest
  | none => fallback

/-! ## src/media_server.rs : parse_range

Modelled over `Int` so that the absence of `u64` underflow is an explicit
nonnegativity statement rather than being hidden by truncated subtraction. -/

/-- A byte range as returned by `parse_range` (`end` is a Lean keyword, the
field is called `stop`). -/
structure ByteRange where
  start : Int
  stop : Int
deriving DecidableEq

/-- Rust's `str::split_once('-')`: the parts before and after the first '-',
or `none` when no '-' occurs. -/
def splitOnceChar (sep : Char) : Str → Option (Str × Str)
  | [] => none
  | c :: t =>
    if c = sep then some ([], t)
    else (splitOnceChar sep t).map fun p => (c :: p.1, p.2)

/-- `str::parse::<u64>()`, as an `Int`-valued partial parse. -/
def parseU64? (l : Str) : Option Int :=
  (parseNat? (2 ^ 64) l).map Int.ofNat

/-- The `start` computation of `parse_range`: for an empty start part,
`bytes=-N` means the last `N` bytes (clamped to 0 when `N > file_size`);
otherwise the parsed start (0 on parse failure). -/
def rangeStartVal (startStr endStr : Str) (fileSize : Int) : Int :=
  if startStr = [] then
    let len : Int := (parseU64? endStr).getD 0
    if len > fileSize then 0 else fileSize - len
  else (parseU64? startStr).getD 0

/-- The `end` computation of `parse_range`: `file_size - 1` for an empty end
part, otherwise the parsed end (defaulting to `file_size - 1` on parse
failure) clamped to `file_size - 1`. -/
def rangeEndVal (endStr : Str) (fileSize : Int) : Int :=
  if endStr = [] then fileSize - 1
  else
    let e := (parseU64? endStr).getD (fileSize - 1)
    if e ≥ fileSize then fileSize - 1 else e

/-- `media_server.rs::parse_range`. -/
def parse_range (rangeStr : Str) (fileSize : Int) : Option ByteRange :=
  if ("bytes=".data).isPrefixOf rangeStr then
    match splitOnceChar '-' (rangeStr.drop 6) with
    | some (startStr, endStr) =>
      let s := rangeStartVal startStr endStr fileSize
      let e := rangeEndVal endStr fileSize
      if s ≤ e ∧ e < fileSize then some ⟨s, e⟩ else none
    | none => none
  else none

/-! ## Well-formed queue-entry URLs (spec, §8 property 1) -/

/-- The trailing part of a well-formed queue-entry URL after the bvid:
nothing, or the "?page=<n>" query. -/
def pageTail : Option Str → Str
  | none => []
  | some n => '?' :: ("page".data ++ ('=' :: n))

/-- A well-formed queue-entry URL, assembled from its bvid and optional page
number (spec: `bilibili://video/<bv>[?page=<n>]`). -/
def mkBiliUrl (bv : Str) (page : Option Str) : Str :=
  bvMarker ++ (bv ++ pageTail page)

/-- A well-formed bvid: nonempty and alphanumeric. -/
def GoodBv (bv : Str) : Prop := bv ≠ [] ∧ ∀ c ∈ bv, c.isAlphanum = true

/-- A well-formed page number: nonempty digits. -/
def GoodPage (n : Str) : Prop := n ≠ [] ∧ ∀ c ∈ n, c.isDigit = true

/-- A well-formed input in the sense of the spec's property 1. -/
def WellFormedUrl (x : Str) : Prop :=
  (∃ bv, GoodBv bv ∧ x = mkBiliUrl bv none) ∨
  (∃ bv n, GoodBv bv ∧ GoodPage n ∧ x = mkBiliUrl bv (some n))

/-! ## Helper lemmas -/

theorem retryGo_zero_shift {α : Type} (j : Nat) :
    ∀ l : List (Except Str α), retryGo 0 j l = retryGo 0 0 l := by
  intro l
  induction l generalizing j with
  | nil => rfl
  | cons r rest ih =>
    cases r with
    | ok v => rfl
    | error e => simp [retryGo, ih]

theorem selectBest_key_le (key : Nat → Nat) :
    ∀ (l : List Nat) (b : Nat), key b ≤ key (selectBest key b l) := by
  intro l
  induction l with
  | nil => intro b; exact le_refl _
  | cons x rest ih =>
    intro b
    simp only [selectBest]
    by_cases h : key b ≤ key x
    · rw [if_pos h]; exact h.trans (ih x)
    · rw [if_neg h]; exact ih b

theorem selectBest_mem_or (key : Nat → Nat) :
    ∀ (l : List Nat) (b : Nat), selectBest key b l = b ∨ selectBest key b l ∈ l := by
  intro l
  induction l with
  | nil => intro b; exact Or.inl rfl
  | cons x rest ih =>
    intro b
    by_cases h : key b ≤ key x
    · rcases ih x with h1 | h1
      · right
        simp only [selectBest, if_pos h, h1]
        exact List.mem_cons_self _ _
      · right
        simp only [selectBest, if_pos h]
        exact List.mem_cons_of_mem _ h1
    · rcases ih b with h1 | h1
      · left; simpa [selectBest, if_neg h] using h1
      · right
        simp only [selectBest, if_neg h]
        exact List.mem_cons_of_mem _ h1

theorem selectBest_max (key : Nat → Nat) :
    ∀ (l : List Nat) (b : Nat) (y : Nat), y ∈ l →
      key y ≤ key (selectBest key b l) := by
  intro l
  induction l with
  | nil => intro b y hy; cases hy
  | cons x rest ih =>
    intro b y hy
    rcases List.mem_cons.mp hy with rfl | hy
    · by_cases h : key b ≤ key y
      · simpa [selectBest, if_pos h] using selectBest_key_le key rest y
      · have hyb : key y ≤ key b := le_of_not_le h
        exact hyb.trans (by simpa [selectBest, if_neg h] using selectBest_key_le key rest b)
    · exact ih _ y hy

theorem selectBest_last_of_max (key : Nat → Nat) :
    ∀ (l : List Nat) (b z : Nat), key b ≤ key z → (∀ y ∈ l, key y ≤ key z) →
      selectBest key b (l ++ [z]) = z := by
  intro l
  induction l with
  | nil =>
    intro b z hb _
    simp [selectBest, if_pos hb]
  | cons x rest ih =>
    intro b z hb hl
    have hx : key x ≤ key z := hl x (List.mem_cons_self _ _)
    have hrest : ∀ y ∈ rest, key y ≤ key z := fun y hy => hl y (List.mem_cons_of_mem _ hy)
    simp only [List.cons_append, selectBest]
    by_cases h : key b ≤ key x
    · rw [if_pos h]; exact ih x z hx hrest
    · rw [if_neg h]; exact ih b z hb hrest

theorem stripFirst_self_append (pat l : Str) (hpat : pat ≠ []) :
    stripFirst pat (pat ++ l) = some l := by
  cases pat with
  | nil => exact absurd rfl hpat
  | cons p pt =>
    have hpre : (p :: pt).isPrefixOf (p :: (pt ++ l)) = true :=
      List.isPrefixOf_iff_prefix.mpr (List.prefix_append (p :: pt) l)
    show stripFirst (p :: pt) (p :: (pt ++ l)) = some l
    rw [stripFirst, if_pos hpre]
    exact congrArg some (List.drop_left (p :: pt) l)

theorem stripFirst_some_decomp (pat : Str) :
    ∀ l r : Str, stripFirst pat l = some r → ∃ pre, l = pre ++ pat ++ r := by
  intro l
  induction l with
  | nil => intro r h; cases h
  | cons c t ih =>
    intro r h
    rw [stripFirst] at h
    split_ifs at h with hp
    · obtain ⟨s, hs⟩ := List.isPrefixOf_iff_prefix.mp hp
      cases h
      refine ⟨[], ?_⟩
      rw [List.nil_append, ← hs, List.drop_left]
    · obtain ⟨pre, hpre⟩ := ih r h
      exact ⟨c :: pre, by simp [hpre]⟩

theorem stripFirst_eq_none (pat l : Str) (c : Char) (hc : c ∈ pat) (hl : c ∉ l) :
    stripFirst pat l = none := by
  cases h : stripFirst pat l with
  | none => rfl
  | some r =>
    obtain ⟨pre, hpre⟩ := stripFirst_some_decomp pat l r h
    exact absurd (by rw [hpre]; simp [hc]) hl

theorem canonChars_append (a b : Str) :
    canonChars (a ++ b) = canonChars a ++ canonChars b := by
  simp [canonChars]

theorem canonChars_of_clean (l : Str) (h : ∀ c ∈ l, c ≠ '?' ∧ c ≠ '=') :
    canonChars l = l := by
  induction l with
  | nil => rfl
  | cons c t ih =>
    have hc := h c (List.mem_cons_self _ _)
    have ht := ih fun x hx => h x (List.mem_cons_of_mem _ hx)
    simp only [canonChars, List.map_cons, if_neg hc.1] at ht ⊢
    rw [List.filter_cons_of_pos (by simpa using hc.2), ht]

theorem canonChars_qmark (l : Str) : canonChars ('?' :: l) = '-' :: canonChars l := by
  simp [canonChars]

theorem canonChars_eqch (l : Str) : canonChars ('=' :: l) = canonChars l := by
  simp [canonChars]

theorem alnum_clean {c : Char} (h : c.isAlphanum = true) :
    c ≠ '?' ∧ c ≠ '=' ∧ c ≠ ':' ∧ c ≠ '-' := by
  refine ⟨?_, ?_, ?_, ?_⟩ <;> rintro rfl <;> exact absurd h (by decide)

theorem digit_alnum {c : Char} (h : c.isDigit = true) : c.isAlphanum = true := by
  simp [Char.isAlphanum, h]

theorem extract_mk_none {bv : Str} (hbv : GoodBv bv) :
    extract_bv_id (mkBiliUrl bv none) = bv := by
  have h1 : stripFirst bvMarker (bvMarker ++ (bv ++ pageTail none)) =
      some (bv ++ pageTail none) := stripFirst_self_append _ _ (by decide)
  have h2 : canonChars bv = bv :=
    canonChars_of_clean bv fun c hc =>
      ⟨(alnum_clean (hbv.2 c hc)).1, (alnum_clean (hbv.2 c hc)).2.1⟩
  unfold extract_bv_id mkBiliUrl
  rw [h1]
  show canonChars (bv ++ pageTail none) = bv
  rw [show pageTail none = ([] : Str) from rfl, List.append_nil, h2]

theorem extract_mk_some {bv n : Str} (hbv : GoodBv bv) (hn : GoodPage n) :
    extract_bv_id (mkBiliUrl bv (some n)) = bv ++ ('-' :: ("page".data ++ n)) := by
  have h1 : stripFirst bvMarker (bvMarker ++ (bv ++ pageTail (some n))) =
      some (bv ++ pageTail (some n)) := stripFirst_self_append _ _ (by decide)
  have h2 : canonChars bv = bv :=
    canonChars_of_clean bv fun c hc =>
      ⟨(alnum_clean (hbv.2 c hc)).1, (alnum_clean (hbv.2 c hc)).2.1⟩
  have h3 : canonChars n = n :=
    canonChars_of_clean n fun c hc =>
      ⟨(alnum_clean (digit_alnum (hn.2 c hc))).1,
       (alnum_clean (digit_alnum (hn.2 c hc))).2.1⟩
  have h4 : canonChars ("page".data) = "page".data := by decide
  unfold extract_bv_id mkBiliUrl
  rw [h1]
  show canonChars (bv ++ pageTail (some n)) = bv ++ ('-' :: ("page".data ++ n))
  rw [show pageTail (some n) = '?' :: ("page".data ++ ('=' :: n)) from rfl]
  rw [canonChars_append, h2, canonChars_qmark, canonChars_append, h4]
  rw [canonChars_eqch, h3]

/-- Characters of a derived key are harmless: not '?', '=' or ':'. -/
theorem key_chars_clean {bv n : Str} (hbv : GoodBv bv) (hn : GoodPage n) :
    (∀ c ∈ bv ++ ('-' :: ("page".data ++ n)), c ≠ '?' ∧ c ≠ '=' ∧ c ≠ ':') := by
  intro c hc
  rcases List.mem_append.mp hc with hc | hc
  · have h := alnum_clean (hbv.2 c hc)
    exact ⟨h.1, h.2.1, h.2.2.1⟩
  · rcases List.mem_cons.mp hc with rfl | hc
    · exact ⟨by decide, by decide, by decide⟩
    · rcases List.mem_append.mp hc with hc | hc
      · rw [show ("page".data : Str) = ['p', 'a', 'g', 'e'] from rfl] at hc
        simp only [List.mem_cons, List.not_mem_nil, or_false] at hc
        rcases hc with rfl | rfl | rfl | rfl <;>
          exact ⟨by decide, by decide, by decide⟩
      · have h := alnum_clean (digit_alnum (hn.2 c hc))
        exact ⟨h.1, h.2.1, h.2.2.1⟩

/-- A string with harmless characters is a fixed point of `extract_bv_id`. -/
theorem extract_fixed {l : Str} (hq : ∀ c ∈ l, c ≠ '?' ∧ c ≠ '=') (hc : ':' ∉ l) :
    extract_bv_id l = l := by
  have h1 : stripFirst bvMarker l = none :=
    stripFirst_eq_none _ _ ':' (by decide) hc
  simp [extract_bv_id, h1, canonChars_of_clean l hq]

theorem dash_split_inj :
    ∀ (a1 a2 r1 r2 : Str), '-' ∉ a1 → '-' ∉ a2 →
      a1 ++ ('-' :: r1) = a2 ++ ('-' :: r2) → a1 = a2 ∧ r1 = r2 := by
  intro a1
  induction a1 with
  | nil =>
    intro a2 r1 r2 h1 h2 heq
    cases a2 with
    | nil => simpa using heq
    | cons b bt =>
      rw [List.nil_append, List.cons_append] at heq
      injection heq with hb _
      exact absurd (hb ▸ List.mem_cons_self b bt) h2
  | cons a arest ih =>
    intro a2 r1 r2 h1 h2 heq
    cases a2 with
    | nil =>
      rw [List.cons_append, List.nil_append] at heq
      injection heq with hb _
      exact absurd (hb.symm ▸ List.mem_cons_self a arest) h1
    | cons b bt =>
      rw [List.cons_append, List.cons_append] at heq
      injection heq with hb ht
      obtain ⟨he1, he2⟩ := ih bt r1 r2
        (fun hx => h1 (List.mem_cons_of_mem _ hx))
        (fun hx => h2 (List.mem_cons_of_mem _ hx)) ht
      exact ⟨by rw [hb, he1], he2⟩

theorem dash_not_mem_of_good {bv : Str} (hbv : GoodBv bv) : '-' ∉ bv :=
  fun hmem => absurd (hbv.2 '-' hmem) (by decide)

/-! ## Claim theorems -/

/-- C1 counterexample.  The claim says that when an attempt handed to the
uniform retry helper `retry_async` fails with a message carrying a 2xx code,
the helper returns success on that first failing attempt, without sleeping or
retrying — i.e. an outcome with 0 sleeps and 1 attempt used.  On the input
below the first attempt fails with "HTTP 204" (which
`should_treat_as_upnp_success` classifies as 2xx), yet `retry_async` sleeps
once and consumes a second attempt. -/
theorem retry_async_2xx_counterexample :
    should_treat_as_upnp_success ("HTTP 204".data) = true ∧
    retry_async 0 [Except.error ("HTTP 204".data), Except.ok ()] =
      some ⟨Except.ok (), 1, 2⟩ ∧
    (1 : Nat) ≠ 0 :=
  ⟨by decide, rfl, by decide⟩

/-- C1 (amended): `retry_async` itself sleeps and retries on every failure,
2xx-coded or not; the 2xx-as-success policy lives in the inline retry loops
of `main.rs` that wrap each UPnP action (stop / set_avtransport_uri / play /
get_secs): there, an attempt failing with a 2xx-coded message yields success
immediately — no sleep, no further attempt — and any other failure sleeps
500 ms and retries. -/
theorem upnp_retry_2xx_policy :
    (∀ (e : Str) (rest : List (Except Str Unit)),
      should_treat_as_upnp_success e = true →
      upnpActionRetryLoop (Except.error e :: rest) = some ⟨0, 1, true⟩) ∧
    (∀ (e : Str) (rest : List (Except Str Unit)),
      should_treat_as_upnp_success e = false →
      upnpActionRetryLoop (Except.error e :: rest) =
        (upnpActionRetryLoop rest).map fun o => ⟨o.sleeps + 1, o.used + 1, o.via2xx⟩) ∧
    (∀ (e : Str) (rest : List (Except Str Unit)),
      retry_async 0 (Except.error e :: rest) =
        (retry_async 0 rest).map fun o => ⟨o.result, o.sleeps + 1, o.used + 1⟩) := by
  refine ⟨fun e rest h => ?_, fun e rest h => ?_, fun e rest => ?_⟩
  · simp [upnpActionRetryLoop, h]
  · simp [upnpActionRetryLoop, h]
  · simp [retry_async, retryGo, retryGo_zero_shift]

/-- C1 witness: concrete instances of the amended theorem. -/
theorem upnp_retry_2xx_policy_witness :
    upnpActionRetryLoop [Except.error ("HTTP 204".data)] = some ⟨0, 1, true⟩ ∧
    upnpActionRetryLoop [Except.error ("HTTP 404".data), Except.ok ()] =
      (upnpActionRetryLoop [Except.ok ()]).map
        fun o => ⟨o.sleeps + 1, o.used + 1, o.via2xx⟩ :=
  ⟨upnp_retry_2xx_policy.1 ("HTTP 204".data) [] (by decide),
   upnp_retry_2xx_policy.2.1 ("HTTP 404".data) [Except.ok ()] (by decide)⟩

/-- C2 counterexample.  With a cached total of 3 s and a position of 2 s the
status-poller tick fires the auto-advance, although the claim's gate
`total > 0 ∧ current > 5 ∧ total > current ∧ total - current ≤ 2` is false
(`current > 5` fails). -/
theorem auto_advance_counterexample :
    (pollTick 0 3 2).fires = true ∧
    ¬ (3 > 0 ∧ 2 > 5 ∧ 3 > 2 ∧ 3 - 2 ≤ 2) :=
  ⟨by decide, by decide⟩

/-- C2 (amended): on a tick whose position read succeeds, with
`total = cachedTotal` when positive (else the value retained from earlier
ticks), `next_song` is invoked iff `total > 0` and `total - current ≤ 2` in
truncated subtraction — so also when `current ≥ total`, and with no
`current > 5` guard — and after any invocation the poller sleeps 5 s before
the next tick. -/
theorem auto_advance_gate :
    ∀ prevTotal cachedTotal current : Nat,
      ((pollTick prevTotal cachedTotal current).fires = true ↔
        0 < (pollTick prevTotal cachedTotal current).total ∧
          (pollTick prevTotal cachedTotal current).total - current ≤ 2) ∧
      ((pollTick prevTotal cachedTotal current).fires = true →
        (pollTick prevTotal cachedTotal current).extraSleep = 5) ∧
      (pollTick prevTotal cachedTotal current).total =
        (if 0 < cachedTotal then cachedTotal else prevTotal) := by
  intro prevTotal cachedTotal current
  refine ⟨?_, fun h => ?_, rfl⟩
  · simp [pollTick, and_comm]
  · simp only [pollTick] at h ⊢
    rw [if_pos h]

/-- C2 witness: at `(prevTotal, cachedTotal, current) = (0, 200, 199)` the
gate fires and the 5 s sleep follows. -/
theorem auto_advance_gate_witness :
    (pollTick 0 200 199).fires = true ∧ (pollTick 0 200 199).extraSleep = 5 :=
  ⟨(auto_advance_gate 0 200 199).1.mpr (by decide),
   (auto_advance_gate 0 200 199).2.1 (by decide)⟩

/-- C4 counterexample.  The claim says both '?' and '=' are replaced by '-',
so that `bilibili://video/BV1x?page=2` would yield `BV1x-page-2`.  The code
deletes '=' (replaces it with the empty string): the derived key is
`BV1x-page2`, which differs from the claimed `BV1x-page-2`. -/
theorem key_equals_counterexample :
    extract_bv_id ("bilibili://video/BV1x?page=2".data) = "BV1x-page2".data ∧
    "BV1x-page2".data ≠ "BV1x-page-2".data :=
  ⟨by decide, by decide⟩

/-- C4 (amended): for every URL starting with the scheme marker, the derived
key is the suffix after the marker with every '?' replaced by '-' and every
'=' deleted (so `bilibili://video/BV1x?page=2` yields `BV1x-page2`). -/
theorem key_derivation (rest : Str) :
    extract_bv_id (bvMarker ++ rest) =
      (rest.map fun c => if c = '?' then '-' else c).filter
        fun c => decide (c ≠ '=') := by
  have h1 : stripFirst bvMarker (bvMarker ++ rest) = some rest :=
    stripFirst_self_append _ _ (by decide)
  simp [extract_bv_id, h1, canonChars]

/-- C6: key derivation is idempotent on well-formed inputs, and distinct
well-formed inputs always map to distinct keys. -/
theorem key_idem_inj :
    (∀ x, WellFormedUrl x → extract_bv_id (extract_bv_id x) = extract_bv_id x) ∧
    (∀ x y, WellFormedUrl x → WellFormedUrl y → x ≠ y →
      extract_bv_id x ≠ extract_bv_id y) := by
  constructor
  · intro x hx
    rcases hx with ⟨bv, hbv, rfl⟩ | ⟨bv, n, hbv, hn, rfl⟩
    · rw [extract_mk_none hbv]
      apply extract_fixed
      · intro c hc
        have h := alnum_clean (hbv.2 c hc)
        exact ⟨h.1, h.2.1⟩
      · intro hc
        exact absurd (hbv.2 ':' hc) (by decide)
    · rw [extract_mk_some hbv hn]
      apply extract_fixed
      · intro c hc
        have h := key_chars_clean hbv hn c hc
        exact ⟨h.1, h.2.1⟩
      · intro hc
        exact (key_chars_clean hbv hn ':' hc).2.2 rfl
  · intro x y hx hy hxy
    rcases hx with ⟨bv1, hbv1, rfl⟩ | ⟨bv1, n1, hbv1, hn1, rfl⟩ <;>
      rcases hy with ⟨bv2, hbv2, rfl⟩ | ⟨bv2, n2, hbv2, hn2, rfl⟩
    · rw [extract_mk_none hbv1, extract_mk_none hbv2]
      intro h
      exact hxy (by rw [h])
    · rw [extract_mk_none hbv1, extract_mk_some hbv2 hn2]
      intro h
      have hmem : '-' ∈ bv1 := by
        rw [h]
        exact List.mem_append.mpr (Or.inr (List.mem_cons_self _ _))
      exact dash_not_mem_of_good hbv1 hmem
    · rw [extract_mk_some hbv1 hn1, extract_mk_none hbv2]
      intro h
      have hmem : '-' ∈ bv2 := by
        rw [← h]
        exact List.mem_append.mpr (Or.inr (List.mem_cons_self _ _))
      exact dash_not_mem_of_good hbv2 hmem
    · rw [extract_mk_some hbv1 hn1, extract_mk_some hbv2 hn2]
      intro h
      obtain ⟨hb, ht⟩ := dash_split_inj bv1 bv2 _ _
        (dash_not_mem_of_good hbv1) (dash_not_mem_of_good hbv2) h
      have hn12 : n1 = n2 := List.append_cancel_left ht
      exact hxy (by rw [hb, hn12])

/-- C6 witness: idempotence at `bilibili://video/BV1x?page=2` and
injectivity against `bilibili://video/BV1x`. -/
theorem key_idem_inj_witness :
    extract_bv_id (extract_bv_id (mkBiliUrl ("BV1x".data) (some ("2".data)))) =
      extract_bv_id (mkBiliUrl ("BV1x".data) (some ("2".data))) ∧
    extract_bv_id (mkBiliUrl ("BV1x".data) (some ("2".data))) ≠
      extract_bv_id (mkBiliUrl ("BV1x".data) none) :=
  ⟨key_idem_inj.1 _ (Or.inr ⟨"BV1x".data, "2".data, ⟨by decide, by decide⟩,
      ⟨by decide, by decide⟩, rfl⟩),
   key_idem_inj.2 _ _
     (Or.inr ⟨"BV1x".data, "2".data, ⟨by decide, by decide⟩,
       ⟨by decide, by decide⟩, rfl⟩)
     (Or.inl ⟨"BV1x".data, ⟨by decide, by decide⟩, rfl⟩)
     (by decide)⟩

/-- C9: for a parsed target and a nonempty interface list,
`get_best_local_ip` returns a member of the list whose key
`leadingZeros (target XOR interface)` is maximal; and ties are resolved by
iteration order in favour of the later element, as Rust's `max_by_key`
documents: whenever the final element's key dominates the rest, it is
selected. -/
theorem get_best_local_ip_argmax :
    (∀ (t x fb : Nat) (rest : List Nat),
      get_best_local_ip (some t) (x :: rest) fb ∈ x :: rest ∧
      ∀ y ∈ x :: rest,
        clz32 (Nat.xor t y) ≤
          clz32 (Nat.xor t (get_best_local_ip (some t) (x :: rest) fb))) ∧
    (∀ (t z fb : Nat) (l : List Nat),
      (∀ y ∈ l, clz32 (Nat.xor t y) ≤ clz32 (Nat.xor t z)) →
      get_best_local_ip (some t) (l ++ [z]) fb = z) := by
  constructor
  · intro t x fb rest
    constructor
    · rcases selectBest_mem_or (fun ip => clz32 (Nat.xor t ip)) rest x with h | h
      · simp [get_best_local_ip, h]
      · simpa [get_best_local_ip] using List.mem_cons_of_mem x h
    · intro y hy
      rcases List.mem_cons.mp hy with rfl | hy
      · simpa [get_best_local_ip] using
          selectBest_key_le (fun ip => clz32 (Nat.xor t ip)) rest y
      · simpa [get_best_local_ip] using
          selectBest_max (fun ip => clz32 (Nat.xor t ip)) rest x y hy
  · intro t z fb l h
    cases l with
    | nil => simp [get_best_local_ip, selectBest]
    | cons x rest =>
      have hx : clz32 (Nat.xor t x) ≤ clz32 (Nat.xor t z) :=
        h x (List.mem_cons_self _ _)
      have hrest : ∀ y ∈ rest, clz32 (Nat.xor t y) ≤ clz32 (Nat.xor t z) :=
        fun y hy => h y (List.mem_cons_of_mem _ hy)
      simpa [get_best_local_ip] using
        selectBest_last_of_max (fun ip => clz32 (Nat.xor t ip)) rest x z hx hrest

/-- C9 witness: target 5 with interfaces `[3, 6]` — the XOR with 6 has more
leading zeros, so 6 is selected; and the tie-dominance instance at the same
list. -/
theorem get_best_local_ip_argmax_witness :
    get_best_local_ip (some 5) [3, 6] 7 ∈ [3, 6] ∧
    get_best_local_ip (some 5) ([3] ++ [6]) 7 = 6 :=
  ⟨(get_best_local_ip_argmax.1 5 3 7 [6]).1,
   get_best_local_ip_argmax.2 5 6 7 [3] (by decide)⟩

/-- C10: for `file_size ≥ 1`, `parse_range` is safe on every header string:
both `u64` subtractions (`file_size - len` and `file_size - 1`) happen only
when nonnegative — the start and end computations always produce values
`≥ 0` — and any returned range satisfies `start ≤ end < file_size`, so the
`end - start + 1` buffer allocation and the seek to `start` in
`handle_dlna_media` are in bounds. -/
theorem parse_range_safe (fileSize : Int) (hfs : 1 ≤ fileSize) :
    (∀ a b : Str, 0 ≤ rangeStartVal a b fileSize) ∧
    (∀ b : Str, 0 ≤ rangeEndVal b fileSize) ∧
    (∀ (s : Str) (r : ByteRange), parse_range s fileSize = some r →
      0 ≤ r.start ∧ r.start ≤ r.stop ∧ r.stop < fileSize) := by
  have hgetD : ∀ (l : Str) (d : Int), 0 ≤ d → 0 ≤ (parseU64? l).getD d := by
    intro l d hd
    cases h : parseU64? l with
    | none => simpa using hd
    | some v =>
      simp only [Option.getD_some]
      simp only [parseU64?, Option.map_eq_some'] at h
      obtain ⟨n, -, rfl⟩ := h
      exact Int.ofNat_nonneg n
  have hstart : ∀ a b : Str, 0 ≤ rangeStartVal a b fileSize := by
    intro a b
    simp only [rangeStartVal]
    split_ifs with h1 h2
    · exact le_refl 0
    · have : (parseU64? b).getD 0 ≤ fileSize := le_of_not_lt h2
      omega
    · exact hgetD a 0 (le_refl 0)
  have hend : ∀ b : Str, 0 ≤ rangeEndVal b fileSize := by
    intro b
    simp only [rangeEndVal]
    split_ifs with h1 h2
    · omega
    · omega
    · exact hgetD b (fileSize - 1) (by omega)
  refine ⟨hstart, hend, fun s r h => ?_⟩
  simp only [parse_range] at h
  split_ifs at h
  rename_i hpre
  cases hsplit : splitOnceChar '-' (s.drop 6) with
  | none => rw [hsplit] at h; cases h
  | some p =>
    obtain ⟨ss, es⟩ := p
    rw [hsplit] at h
    dsimp only at h
    split_ifs at h with hcond
    cases h
    exact ⟨hstart ss es, hcond.1, hcond.2⟩

/-- C10 witness: `bytes=0-499` against a 1000-byte file. -/
theorem parse_range_safe_witness :
    0 ≤ (0 : Int) ∧ (0 : Int) ≤ 499 ∧ (499 : Int) < 1000 :=
  (parse_range_safe 1000 (by decide)).2.2 ("bytes=0-499".data) ⟨0, 499⟩ (by decide)

/-- Helper for C5: over a list of successful fetch outcomes, the callback
count of the polling loop equals the spec's change count, for any initial
cached value. -/
theorem pollCallbacks_count_from (ks : List (Option Str)) :
    ∀ prev : Option Str,
      (pollCallbacks prev (ks.map Except.ok)).length = specChangeCount prev ks := by
  induction ks with
  | nil => intro prev; rfl
  | cons k rest ih =>
    intro prev
    simp only [List.map_cons, pollCallbacks, pollStep]
    by_cases hk : k = prev
    · simp [specChangeCount, hk, ih prev]
    · cases k with
      | none => simp [specChangeCount, hk, ih none]
      | some u => simp [specChangeCount, hk, ih (some u), Nat.add_comm]

/-- C5: for every finite sequence of successful `fetch_playlist` results
consumed by the polling loop, the number of on-change callback invocations
equals the number of positions whose singing key differs from the previous
one and is not `none`, the key before the first position being `none`. -/
theorem poll_callback_count (ks : List (Option Str)) :
    (pollCallbacks none (ks.map Except.ok)).length = specChangeCount none ks :=
  pollCallbacks_count_from ks none

/-- C3 counterexample.  The claim says the callback is never fired twice in a
row with the same key even if a `none` singing key is observed between the
two occurrences.  Feeding the polling loop the successful fetch results
`some A, none, some A` fires the callback twice with the same key `A`:
the `none` observation resets the cached value, so the second `some A` is
again seen as a change. -/
theorem sync_dedup_counterexample :
    pollCallbacks none
        [Except.ok (some ("BV1A".data)), Except.ok none,
         Except.ok (some ("BV1A".data))] =
      ["BV1A".data, "BV1A".data] ∧
    ¬ List.Chain' (fun a b : Str => a ≠ b)
        (pollCallbacks none
          [Except.ok (some ("BV1A".data)), Except.ok none,
           Except.ok (some ("BV1A".data))]) :=
  ⟨by decide, by
    intro hch
    rw [show pollCallbacks none
        [Except.ok (some ("BV1A".data)), Except.ok none,
         Except.ok (some ("BV1A".data))] =
        ["BV1A".data, "BV1A".data] from by decide] at hch
    exact (List.chain'_cons.mp hch).1 rfl⟩

/-- C3 (amended): in every sync loop the callback fires only when the fetched
singing key is a `some` differing from the last *observed* singing value (the
cached value, which also tracks `none` observations in the periodic and
UPDATE branches — so the same key can fire twice when a `none` was observed
in between); an UPDATE frame whose hash equals the cached hash triggers
neither fetch nor callback; and a reconnect whose eager fetch returns the
unchanged singing key fires nothing. -/
theorem sync_dedup_amended :
    (∀ (cached : Option Str) (r : Except Str (Option Str)),
      (pollStep cached r).2 ≠ [] →
      r = Except.ok (pollStep cached r).1 ∧
      (pollStep cached r).1 ≠ cached ∧
      (pollStep cached r).2 = ((pollStep cached r).1).toList) ∧
    (∀ (h : Str) (cached : Option Str) (f : Except Str (Option Str)),
      wsUpdateStep h h cached f = (cached, [])) ∧
    (∀ u : Str, wsReconnectStep (some u) (Except.ok (some u)) = (some u, [])) ∧
    (∀ (cached : Option Str) (f : Except Str (Option Str)),
      (wsReconnectStep cached f).2 ≠ [] →
      f = Except.ok (wsReconnectStep cached f).1 ∧
      (wsReconnectStep cached f).1 ≠ cached ∧
      (wsReconnectStep cached f).2 = ((wsReconnectStep cached f).1).toList) := by
  refine ⟨fun cached r hr => ?_, fun h cached f => ?_, fun u => ?_,
    fun cached f hf => ?_⟩
  · cases r with
    | error e => simp [pollStep] at hr
    | ok new =>
      by_cases hn : new = cached
      · simp [pollStep, hn] at hr
      · cases new with
        | none => simp [pollStep, hn] at hr
        | some u => simp [pollStep, hn]
  · simp [wsUpdateStep]
  · simp [wsReconnectStep]
  · cases f with
    | error e => simp [wsReconnectStep] at hf
    | ok new =>
      cases new with
      | none => simp [wsReconnectStep] at hf
      | some u =>
        by_cases hn : some u = cached
        · simp [wsReconnectStep, hn] at hf
        · simp [wsReconnectStep, hn]

/-- C3 witness: the first fire of the polling loop, at an initially empty
cached value. -/
theorem sync_dedup_amended_witness :
    (Except.ok (some ("BV1A".data)) : Except Str (Option Str)) =
      Except.ok (pollStep none (Except.ok (some ("BV1A".data)))).1 ∧
    (pollStep none (Except.ok (some ("BV1A".data)))).1 ≠ none ∧
    (pollStep none (Except.ok (some ("BV1A".data)))).2 =
      ((pollStep none (Except.ok (some ("BV1A".data)))).1).toList :=
  sync_dedup_amended.1 none (Except.ok (some ("BV1A".data))) (by decide)

/-- C7: `fetch_playlist` returns the stored singing key and leaves all three
cells unchanged when `changed == false`; replaces all three cells (keys
computed for every queued url present and for the singing url) and returns
the new singing key when `changed == true`; and leaves the cells unchanged on
any error return. -/
theorem fetch_playlist_frame :
    ∀ (st : PMState) (e : Str) (j : SongListResp),
      fetch_playlist st (Except.error e) = (st, Except.error e) ∧
      (j.changed.getD false = false →
        fetch_playlist st (Except.ok j) = (st, Except.ok st.song_playing)) ∧
      (j.changed.getD false = true →
        fetch_playlist st (Except.ok j) =
          (⟨some (j.hash.getD EMPTY_LIST_HASH),
            ((j.queued.getD []).filterMap id).map extract_bv_id,
            j.singingUrl.map extract_bv_id⟩,
           Except.ok (j.singingUrl.map extract_bv_id))) := by
  intro st e j
  refine ⟨rfl, fun h => ?_, fun h => ?_⟩
  · simp [fetch_playlist, h]
  · simp [fetch_playlist, h]

/-- C7 witness: an unchanged response against a populated state, and a
changed response carrying one queued song. -/
theorem fetch_playlist_frame_witness :
    fetch_playlist ⟨some ("h1".data), [], some ("BV0".data)⟩
        (Except.ok ⟨some false, none, none, none⟩) =
      (⟨some ("h1".data), [], some ("BV0".data)⟩, Except.ok (some ("BV0".data))) ∧
    fetch_playlist ⟨some ("h1".data), [], some ("BV0".data)⟩
        (Except.ok ⟨some true, some ("h2".data),
          some [some ("bilibili://video/BV2".data)],
          some ("bilibili://video/BV2".data)⟩) =
      (⟨some ("h2".data), ["BV2".data], some ("BV2".data)⟩,
       Except.ok (some ("BV2".data))) := by
  constructor
  · exact (fetch_playlist_frame ⟨some ("h1".data), [], some ("BV0".data)⟩ []
      ⟨some false, none, none, none⟩).2.1 rfl
  · exact ((fetch_playlist_frame ⟨some ("h1".data), [], some ("BV0".data)⟩ []
      ⟨some true, some ("h2".data), some [some ("bilibili://video/BV2".data)],
       some ("bilibili://video/BV2".data)⟩).2.2 rfl).trans rfl

/-- C8 counterexample.  The claim says `next_song` returns an error if and
only if the response does not contain `success: true`.  Here the response
does contain `success: true`, but the immediate follow-up `fetch_playlist`
fails, and `next_song` propagates that failure as an error. -/
theorem next_song_iff_counterexample :
    (next_song ⟨none, [], none⟩ (Except.ok (some true))
        (Except.error ("HTTP 500".data))).result =
      Except.error ("HTTP 500".data) ∧
    (some true).getD false = true :=
  ⟨rfl, rfl⟩

/-- C8 (amended): `next_song` always POSTs the stored hash or the
`EMPTY_LIST_HASH` sentinel; when the response lacks `success: true` it fails
with the local state untouched and no fetch performed; when the response
carries `success: true` it performs exactly one immediate `fetch_playlist`,
adopts that fetch's state, and returns `Ok` precisely when that fetch
succeeds (propagating the fetch's error otherwise). -/
theorem next_song_behavior :
    ∀ (st : PMState) (e : Str) (s : Option Bool) (f : Except Str SongListResp),
      next_song st (Except.error e) f =
        ⟨st, Except.error e, 0, st.hash.getD EMPTY_LIST_HASH⟩ ∧
      (next_song st (Except.ok s) f).bodyHash = st.hash.getD EMPTY_LIST_HASH ∧
      (s.getD false = false →
        (next_song st (Except.ok s) f).state = st ∧
        (next_song st (Except.ok s) f).fetchCalls = 0 ∧
        (next_song st (Except.ok s) f).result =
          Except.error ("request rejected".data)) ∧
      (s.getD false = true →
        (next_song st (Except.ok s) f).fetchCalls = 1 ∧
        (next_song st (Except.ok s) f).state = (fetch_playlist st f).1 ∧
        ((next_song st (Except.ok s) f).result = Except.ok () ↔
          ∃ k, (fetch_playlist st f).2 = Except.ok k)) := by
  intro st e s f
  refine ⟨rfl, ?_, fun hs => ?_, fun hs => ?_⟩
  · simp only [next_song]
    split_ifs
    · rfl
    · rcases fetch_playlist st f with ⟨st2, r2⟩
      cases r2 <;> rfl
  · simp [next_song, hs]
  · simp only [next_song, hs]
    rcases fetch_playlist st f with ⟨st2, r2⟩
    cases r2 with
    | error e2 => simp
    | ok k => simp

/-- C8 witness: `success: true` with a succeeding follow-up fetch, and
`success: false` with no fetch. -/
theorem next_song_behavior_witness :
    (next_song ⟨none, [], none⟩ (Except.ok (some true))
        (Except.ok ⟨some false, none, none, none⟩)).fetchCalls = 1 ∧
    (next_song ⟨none, [], none⟩ (Except.ok (some true))
        (Except.ok ⟨some false, none, none, none⟩)).result = Except.ok () ∧
    (next_song ⟨none, [], none⟩ (Except.ok (some false))
        (Except.ok ⟨some false, none, none, none⟩)).fetchCalls = 0 := by
  have h := (next_song_behavior ⟨none, [], none⟩ [] (some true)
      (Except.ok ⟨some false, none, none, none⟩)).2.2.2 rfl
  have h0 := (next_song_behavior ⟨none, [], none⟩ [] (some false)
      (Except.ok ⟨some false, none, none, none⟩)).2.2.1 rfl
  exact ⟨h.1, h.2.2.mpr ⟨none, rfl⟩, h0.2.1⟩

end KtvCasting
